import Mathlib

/-!
Verification of the event-acquisition and calendar-synthesis pipeline of the
`your-ical` repository (Express backend `server.js` plus `utils.js`), as a
shallow embedding in Lean 4.

Modelling conventions:
* JavaScript millisecond timestamps are rationals (`ℚ`); a calendar day is the
  integer `⌊t / 86400000⌋`.  `Date` objects built with `setDate`/`setHours` are
  modelled as `day * 86400000 + timeOfDay` with an abstract integer day number,
  which abstracts month/DST boundaries of the host calendar but preserves the
  day arithmetic the code performs.
* Fields of provider records that hold ISO date strings are modelled by the
  timestamp (`ℚ`) the string parses to; a present field is a nonempty string,
  hence truthy, so JavaScript `a || b` on such fields is `Option.orElse`.
* `Math.random()` is an injected random tape `rnd : ℕ → ℚ`; every call to
  `Math.random()` consumes the next tape index, and `ValidRand` states the
  codomain contract `0 ≤ rnd i < 1`.  `Math.floor` on those values is `Int.floor`.
* `Date.now()` readings are explicit parameters (`now`, `nowAt`).
-/

namespace YourIcal

/-- JavaScript `a || b` on optional strings: an absent field and the empty
string are falsy, any other string is truthy. -/
def jsOrS : Option String → Option String → Option String
  | some s, b => if s = "" then b else some s
  | none, b => b

/-- A raw provider / synthesized event record (the fields `server.js` and
`utils.js` ever read).  Date-bearing fields hold the parsed timestamp;
`location` is the provider's `[lon, lat]` array. -/
structure RawEvent where
  title : Option String := none
  name : Option String := none
  start : Option ℚ := none
  start_local : Option ℚ := none
  «end» : Option ℚ := none
  end_local : Option ℚ := none
  date : Option ℚ := none
  location : Option (List ℚ) := none
  category : Option String := none
deriving DecidableEq

/-- The uniform event shape produced by `normalizeEvents` in `utils.js`.
`startDate`/`endDate` are `none` when every date field of the source record is
absent (JavaScript `new Date(undefined)`, an invalid date). -/
structure NormalizedEvent where
  title : String
  startDate : Option ℚ
  endDate : Option ℚ
deriving DecidableEq

/-- One record of `normalizeEvents` (`utils.js` lines 6–10):
`title: event.title || event.name || 'Event'`,
`startDate: new Date(event.start || event.start_local || event.date)`,
`endDate: new Date(event.end || event.end_local || event.date)`. -/
def normalizeEvent (event : RawEvent) : NormalizedEvent :=
  { title := (jsOrS event.title (jsOrS event.name (some "Event"))).getD "Event"
    startDate := (event.start <|> event.start_local <|> event.date)
    endDate := (event.«end» <|> event.end_local <|> event.date) }

/-- `normalizeEvents` from `utils.js`: map `normalizeEvent` over the batch. -/
def normalizeEvents (predictHQEvents : List RawEvent) : List NormalizedEvent :=
  predictHQEvents.map normalizeEvent

/-- Milliseconds in a day. -/
def dayMs : ℚ := 86400000

/-- The calendar day (as integer day number) a timestamp falls on. -/
def calendarDay (t : ℚ) : ℤ := ⌊t / dayMs⌋

/-- The injected random tape satisfies the `Math.random()` contract. -/
def ValidRand (rnd : ℕ → ℚ) : Prop := ∀ i, 0 ≤ rnd i ∧ rnd i < 1

/-- JavaScript `Math.floor(r * k)` used as an array index (nonnegative for a
valid tape value). -/
def jsFloorIdx (r : ℚ) (k : ℕ) : ℕ := (⌊r * k⌋).toNat

/-- JavaScript `s.split(',')` on the character list of `s`: splitting never
yields the empty list (`"".split(',')` is `[""]`). -/
def splitCommaChars : List Char → List String
  | [] => [""]
  | c :: cs =>
      if c = ',' then "" :: splitCommaChars cs
      else
        match splitCommaChars cs with
        | [] => [String.mk [c]]
        | r :: rs => String.mk (c :: r.data) :: rs

/-- JavaScript `categories.split(',')`. -/
def jsSplitComma (s : String) : List String := splitCommaChars s.data

/-- The per-category title template table of `generateLocationEvents`
(`server.js` lines 212–257), keyed by interpolated city name. -/
def eventTemplates (cityName : String) : String → Option (List String)
  | "public-holidays" => some [
      cityName ++ " Public Holiday Celebration",
      "National Day in " ++ cityName,
      cityName ++ " Heritage Festival"]
  | "festivals" => some [
      cityName ++ " Music Festival",
      cityName ++ " Art & Culture Festival",
      cityName ++ " Food & Wine Festival",
      cityName ++ " International Film Festival",
      cityName ++ " Street Art Festival"]
  | "concerts" => some [
      "Classical Concert at " ++ cityName ++ " Concert Hall",
      "Jazz Night in " ++ cityName,
      "Rock Concert - " ++ cityName ++ " Arena",
      "Chamber Music at " ++ cityName ++ " Opera House",
      "Electronic Music Festival " ++ cityName]
  | "sports" => some [
      cityName ++ " Football Match",
      cityName ++ " Basketball Tournament",
      cityName ++ " Marathon",
      "Tennis Open " ++ cityName,
      cityName ++ " Cycling Championship"]
  | "academic" => some [
      cityName ++ " University Conference",
      "Research Symposium " ++ cityName,
      "Academic Workshop at " ++ cityName,
      "Student Exchange Program " ++ cityName]
  | "conferences" => some [
      "Tech Conference " ++ cityName,
      "Business Summit " ++ cityName,
      "Innovation Forum " ++ cityName,
      "Startup Meetup " ++ cityName]
  | "performing-arts" => some [
      "Theatre Performance " ++ cityName,
      "Opera Gala " ++ cityName,
      "Ballet Show " ++ cityName,
      "Comedy Night " ++ cityName]
  | _ => none

/-- `eventTemplates[category] || eventTemplates['festivals']`
(`server.js` line 270). -/
def templatesFor (cityName category : String) : List String :=
  (eventTemplates cityName category).getD ((eventTemplates cityName "festivals").getD [])

/-- One synthesized event of `generateLocationEvents` (`server.js` lines
268–289), drawing tape indices `c, c+1, c+2, c+3, c+4` for category, title,
start hour, start minute and duration.  `eventDay` is the integer day number of
`eventDate`; the pushed `start`/`end` ISO strings are modelled by the
timestamps they encode. -/
def synthOneEvent (rnd : ℕ → ℚ) (c : ℕ) (cityName : String)
    (categoryList : List String) (eventDay : ℤ) : RawEvent :=
  let category := categoryList.getD (jsFloorIdx (rnd c) categoryList.length) ""
  let templates := templatesFor cityName category
  let title := templates.get? (jsFloorIdx (rnd (c+1)) templates.length)
  let startHour : ℕ := 9 + jsFloorIdx (rnd (c+2)) 12
  let startMinute : ℕ := if rnd (c+3) > 1/2 then 0 else 30
  let eventStartTime : ℚ := eventDay * dayMs + (startHour * 60 + startMinute) * 60000
  let durationHours : ℚ := 1 + rnd (c+4) * 3
  { title := title
    start := some eventStartTime
    «end» := some (eventStartTime + durationHours * 60 * 60 * 1000)
    category := some category }

/-- The inner `for i < eventsPerDay` loop of `generateLocationEvents`:
`n` events on day `eventDay`, starting at tape index `c`. -/
def synthEventsForDay (rnd : ℕ → ℚ) (cityName : String) (categoryList : List String)
    (eventDay : ℤ) : ℕ → ℕ → List RawEvent
  | _, 0 => []
  | c, n + 1 =>
      synthOneEvent rnd c cityName categoryList eventDay ::
        synthEventsForDay rnd cityName categoryList eventDay (c + 5) n

/-- The nested `week`/`day` loops of `generateLocationEvents`, flattened over
the offsets `week*7 + day` (`ds = List.range (weeks*7)` at top level): each day
first draws `eventsPerDay = Math.floor(Math.random()*2) + 2`, then synthesizes
that many events on day `today + 1 + d`. -/
def synthAllDays (rnd : ℕ → ℚ) (cityName : String) (categoryList : List String)
    (today : ℤ) : List ℕ → ℕ → List RawEvent
  | [], _ => []
  | d :: ds, c =>
      let eventsPerDay := jsFloorIdx (rnd c) 2 + 2
      synthEventsForDay rnd cityName categoryList (today + 1 + d) (c + 1) eventsPerDay ++
        synthAllDays rnd cityName categoryList today ds (c + 1 + 5 * eventsPerDay)

/-- `generateLocationEvents(locationInfo, categories, weeks)` (`server.js`
lines 201–294): start from tomorrow (`today + 1`), default the city name with
`locationInfo.cityName || 'Local Area'`, split the category string on commas,
generate 2–3 events per day over `weeks*7` days, and truncate with
`events.slice(0, 140)`. -/
def generateLocationEvents (rnd : ℕ → ℚ) (today : ℤ) (cityNameOpt : Option String)
    (categories : String) (weeks : ℕ) : List RawEvent :=
  let cityName := (jsOrS cityNameOpt (some "Local Area")).getD ""
  let categoryList := jsSplitComma categories
  (synthAllDays rnd cityName categoryList today (List.range (weeks * 7)) 0).take 140

/-! ### Calendar serialization (`generateICalendar`, `utils.js` lines 13–83)

`generateICalendar` first redistributes the input events over a 28-day window
(at most 5 per day, consuming the list in order), then emits one calendar
event block per distributed record via `calendar.createEvent`.  The emitted
text is modelled by the list of event blocks it contains, one
`SerializedEvent` per `createEvent` call; re-parsing the text recovers exactly
this list. -/

/-- Little-endian base-10 digits of a natural number. -/
def decDigits : ℕ → List ℕ
  | 0 => []
  | n + 1 => ((n + 1) % 10) :: decDigits ((n + 1) / 10)
decreasing_by exact Nat.div_lt_self (Nat.succ_pos n) (by omega)

/-- The character for one decimal digit. -/
def digitChar (d : ℕ) : Char := Char.ofNat (48 + d)

/-- Decimal rendering of a natural number, as JavaScript string interpolation
`${n}` renders it. -/
def decRepr (n : ℕ) : String :=
  if n = 0 then "0" else ⟨((decDigits n).reverse.map digitChar)⟩

/-- The UID template `predicthq-${Date.now()}-${index}` (`utils.js` line 78). -/
def mkUid (t index : ℕ) : String :=
  "predicthq-" ++ decRepr t ++ "-" ++ decRepr index

/-- One parsed event block of the serialized calendar text.  `uid` is the
string `predicthq-${Date.now()}-${index}` (`utils.js` line 78). -/
structure SerializedEvent where
  start : Option ℚ
  «end» : Option ℚ
  summary : String
  description : String
  uid : String
deriving DecidableEq

/-- One `calendar.createEvent` call (`utils.js` lines 72–80); `nowAt index` is
the `Date.now()` reading taken while emitting block `index`. -/
def createEvent (nowAt : ℕ → ℕ) (index : ℕ) (event : NormalizedEvent) : SerializedEvent :=
  { start := event.startDate
    «end» := event.endDate
    summary := event.title
    description := "Event from PredictHQ"
    uid := mkUid (nowAt index) index }

/-- The `distributedEvents.forEach((event, index) => calendar.createEvent ...)`
loop, with the running index made explicit. -/
def serializeFrom (nowAt : ℕ → ℕ) : ℕ → List NormalizedEvent → List SerializedEvent
  | _, [] => []
  | index, event :: rest => createEvent nowAt index event :: serializeFrom nowAt (index + 1) rest

/-- `getRandomTime(date)` (`utils.js` lines 26–32): hour `8 + ⌊r·14⌋`, minute
`⌊r·4⌋·15`, on the calendar day `date`; tape indices `c`, `c+1`. -/
def getRandomTime (rnd : ℕ → ℚ) (c : ℕ) (date : ℤ) : ℚ :=
  let hour : ℕ := 8 + jsFloorIdx (rnd c) 14
  let minute : ℕ := jsFloorIdx (rnd (c+1)) 4 * 15
  date * dayMs + (hour * 60 + minute) * 60000

/-- `getRandomDuration()` (`utils.js` lines 35–38): one of 60, 90, 120, 180
minutes (the index is in range for any tape value in `[0,1)`). -/
def getRandomDuration (rnd : ℕ → ℚ) (c : ℕ) : ℚ :=
  [60, 90, 120, 180].getD (jsFloorIdx (rnd c) 4) 0

/-- The body of the distribution loop (`utils.js` lines 50–67): overwrite the
event's timestamps with a random start on day `currentDate` and a random
duration, consuming tape indices `c, c+1, c+2`. -/
def distributeOne (rnd : ℕ → ℚ) (c : ℕ) (currentDate : ℤ) (event : NormalizedEvent) :
    NormalizedEvent :=
  let eventStart := getRandomTime rnd c currentDate
  let duration := getRandomDuration rnd (c + 2)
  { event with startDate := some eventStart, endDate := some (eventStart + duration * 60000) }

/-- The inner `while (eventsForDay < maxEventsPerDay && eventIndex < length)`
loop: fill up to `slots` remaining slots on day `currentDate` from the front of
`rest`, returning the placed events, the tape index after the day, and the
unconsumed remainder. -/
def takeDay (rnd : ℕ → ℚ) (currentDate : ℤ) :
    ℕ → ℕ → List NormalizedEvent → List NormalizedEvent × ℕ × List NormalizedEvent
  | 0, c, rest => ([], c, rest)
  | _ + 1, c, [] => ([], c, [])
  | slots + 1, c, event :: rest =>
      let placed := distributeOne rnd c currentDate event
      let (l, cAfter, restAfter) := takeDay rnd currentDate slots (c + 3) rest
      (placed :: l, cAfter, restAfter)

/-- The outer `for (dayOffset; dayOffset < daysToFill && eventIndex < length)`
loop: `daysLeft` days remain, the current day is `today + dayOffset`. -/
def distributeDays (rnd : ℕ → ℚ) (today : ℤ) :
    ℕ → ℕ → ℕ → List NormalizedEvent → List NormalizedEvent
  | _, 0, _, _ => []
  | _, _ + 1, _, [] => []
  | dayOffset, daysLeft + 1, c, event :: rest =>
      let dayResult := takeDay rnd (today + dayOffset) 5 c (event :: rest)
      dayResult.1 ++ distributeDays rnd today (dayOffset + 1) daysLeft dayResult.2.1 dayResult.2.2

/-- The day-distribution stage of `generateICalendar` (`utils.js` lines
20–68): `maxEventsPerDay = 5`, `daysToFill = 28`, starting from `today`. -/
def distributeEvents (rnd : ℕ → ℚ) (today : ℤ) (events : List NormalizedEvent) :
    List NormalizedEvent :=
  distributeDays rnd today 0 28 0 events

/-- `generateICalendar(events)` (`utils.js` lines 13–83), modelled on its
observable output: the list of event blocks of the returned calendar text.
`rnd` is the `Math.random` tape of the distribution stage, `today` the day
number of `new Date()` at entry, `nowAt` the `Date.now()` readings of the
serialization loop. -/
def generateICalendar (rnd : ℕ → ℚ) (today : ℤ) (nowAt : ℕ → ℕ)
    (events : List NormalizedEvent) : List SerializedEvent :=
  serializeFrom nowAt 0 (distributeEvents rnd today events)

/-! ### Session store (`global.calendarStore` in `server.js`)

The store is the JavaScript object `global.calendarStore`, keyed by the
stringified millisecond timestamp `sessionId`; we key by the integer itself
(`parseInt(key)` in the sweep recovers exactly this integer). -/

/-- The value stored per session (`server.js` lines 438–443). -/
structure CalendarData where
  content : List SerializedEvent
  eventCount : ℕ
  timestamp : ℤ
  cityName : String
deriving DecidableEq

/-- The session map: key (millisecond timestamp) to stored calendar. -/
def Store : Type := ℤ → Option CalendarData

/-- The store before any generation request. -/
def emptyStore : Store := fun _ => none

/-- The `put` of the on-demand handler (`server.js` lines 435–455): mint
`sessionId = Date.now()`, assign `calendarStore[sessionId] = data`, then sweep
every key with `parseInt(key) < Date.now() - 10*60*1000`.  Returns the minted
key and the store after the sweep. -/
def storePut (now : ℤ) (data : CalendarData) (s : Store) : ℤ × Store :=
  (now, fun key =>
    if key < now - 10 * 60 * 1000 then none
    else if key = now then some data
    else s key)

/-- The download handler's access (`server.js` lines 520–548): look the key up
with no expiry check; on a hit, respond with the content and delete the entry
after the 1-second grace delay.  Returns the response payload (`none` is the
404 branch) and the store once the scheduled deletion has fired. -/
def storeGet (sessionId : ℤ) (s : Store) : Option CalendarData × Store :=
  match s sessionId with
  | none => (none, s)
  | some data => (some data, fun key => if key = sessionId then none else s key)

/-! ### The on-demand request handler (`POST /api/generate-calendar`,
`server.js` lines 350–474) -/

/-- The parsed `"<radius>km@<lat>,<lon>"` location string; `radius` is passed
through to the provider only, the relevance filter reads `lat`/`lon`. -/
structure LocationQuery where
  lat : ℚ
  lon : ℚ
deriving DecidableEq

/-- The request body of `POST /api/generate-calendar`; `weeks = 4` is the
destructuring default applied when the field is absent. -/
structure GenerateRequest where
  location : Option LocationQuery := none
  categories : Option String := none
  weeks : Option ℕ := none
  cityName : Option String := none

/-- The relevance predicate of the handler (`server.js` lines 392–399): an
event passes iff it carries a coordinate array `[lon, lat, ...]` and
`Math.sqrt((lat-targetLat)^2 + (lon-targetLon)^2) < 1`.  Both sides of the
comparison are nonnegative, so `sqrt d < 1 ↔ d < 1`, and the predicate is
stated on the squared distance; a record without (or with a short) coordinate
array yields `NaN`, whose comparison is false. -/
def isLocalEvent (targetLat targetLon : ℚ) (event : RawEvent) : Bool :=
  match event.location with
  | some (eventLon :: eventLat :: _) =>
      decide ((eventLat - targetLat)^2 + (eventLon - targetLon)^2 < 1)
  | _ => false

/-- The HTTP outcome of the generate-calendar handler.  `ok` carries the
fields of the success JSON that the spec's claims observe (`eventCount`,
`events`, `sessionId`). -/
inductive ApiResponse where
  | ok (eventCount : ℕ) (events : List NormalizedEvent) (sessionId : ℤ)
  | badRequest (error : String)
  | notFound (error : String)
  | serverError (error : String)
deriving DecidableEq

/-- `POST /api/generate-calendar` (`server.js` lines 350–474).

Parameters standing for the handler's environment: `hasToken` is whether
`PREDICTHQ_TOKEN` is configured; `providerResult` the outcome of the provider
request (`Except.error` for any axios failure); `rndGen`/`rndCal` the
`Math.random` tapes consumed by `generateLocationEvents` and by
`generateICalendar`; `today` the day number of `new Date()`; `now` the
`Date.now()` reading minting the session id; `nowAt` the per-block readings of
the serialization loop.

Control flow mirrored from the source: missing `location` → 400; with a token,
a provider failure or an empty batch falls back to synthesis, a nonempty batch
is filtered by `isLocalEvent` and used verbatim iff at least 10 events remain;
synthesis with an absent `categories` field throws
(`categories.split` on `undefined`), caught by the surrounding `try` → 500;
zero events → 404; otherwise normalize, serialize, store, 200. -/
def handleGenerateCalendar (hasToken : Bool) (providerResult : Except Unit (List RawEvent))
    (rndGen rndCal : ℕ → ℚ) (today : ℤ) (now : ℤ) (nowAt : ℕ → ℕ)
    (req : GenerateRequest) (store : Store) : ApiResponse × Store :=
  match req.location with
  | none => (.badRequest "Location is required", store)
  | some loc =>
    let realEvents : Option (List RawEvent) :=
      if hasToken then
        match providerResult with
        | .error _ => none
        | .ok predictHQEvents =>
          if 0 < predictHQEvents.length then
            let localEvents := predictHQEvents.filter (isLocalEvent loc.lat loc.lon)
            if 10 ≤ localEvents.length then some localEvents else none
          else none
      else none
    let eventsResult : Except String (List RawEvent) :=
      match realEvents with
      | some evs => .ok evs
      | none =>
        match req.categories with
        | none => .error "categories.split is not a function"
        | some categories =>
            .ok (generateLocationEvents rndGen today req.cityName categories (req.weeks.getD 4))
    match eventsResult with
    | .error msg => (.serverError msg, store)
    | .ok events =>
      if events.length = 0 then
        (.notFound "No events found for the specified criteria", store)
      else
        let normalizedEvents := normalizeEvents events
        let icsContent := generateICalendar rndCal today nowAt normalizedEvents
        let calendarData : CalendarData :=
          { content := icsContent
            eventCount := normalizedEvents.length
            timestamp := now
            cityName := (jsOrS req.cityName (some "Unknown")).getD "" }
        let putResult := storePut now calendarData store
        (.ok normalizedEvents.length normalizedEvents putResult.1, putResult.2)

/-! ### Observer and specification-side definitions used by the statements -/

/-- The calendar day an event's start timestamp falls on (0 for an invalid
date; every distributed or synthesized event carries a timestamp). -/
def eventDay (e : NormalizedEvent) : ℤ := calendarDay (e.startDate.getD 0)

/-- The timestamp pair of a normalized event. -/
def evTimes (e : NormalizedEvent) : Option ℚ × Option ℚ := (e.startDate, e.endDate)

/-- The timestamp pair of a serialized event block. -/
def serTimes (s : SerializedEvent) : Option ℚ × Option ℚ := (s.start, s.«end»)

/-- Value of a little-endian digit list. -/
def decEval : List ℕ → ℕ
  | [] => 0
  | d :: ds => d + 10 * decEval ds

/-- The start-date resolution order stated by the spec ("prefer locale-local
fields (`start_local`/`end_local`) over UTC fields, falling back to a generic
`date` field"), written from the spec's words for comparison with
`normalizeEvent`. -/
def specResolveStart (e : RawEvent) : Option ℚ :=
  (e.start_local <|> e.start <|> e.date)

/-- The end-date resolution order stated by the spec, written from the spec's
words for comparison with `normalizeEvent`. -/
def specResolveEnd (e : RawEvent) : Option ℚ :=
  (e.end_local <|> e.«end» <|> e.date)

/-- The spec's relevance criterion, written from the spec's words: "Euclidean
distance in degrees between (event lat, event lon) and (query lat, query lon);
threshold = 1.0 degree". -/
def specWithinThreshold (targetLat targetLon eventLat eventLon : ℚ) : Prop :=
  Real.sqrt (((eventLat : ℝ) - targetLat) ^ 2 + ((eventLon : ℝ) - targetLon) ^ 2) < 1

/-! ### Concrete inputs for counterexamples and witnesses -/

/-- The constant-zero random tape (a valid `Math.random` source). -/
def rnd0 : ℕ → ℚ := fun _ => 0

/-- Constant `Date.now()` readings for the serialization loop. -/
def nowAt0 : ℕ → ℕ := fun _ => 0

/-- A raw record carrying both the UTC and the locale-local timed fields. -/
def c2CounterEvent : RawEvent :=
  { start := some 1000, start_local := some 2000
    «end» := some 3000, end_local := some 4000 }

/-- A raw record carrying only the generic `date` field. -/
def c6CounterEvent : RawEvent := { date := some 0 }

/-- A stored calendar session used in the store statements. -/
def c1Data : CalendarData :=
  { content := [], eventCount := 14, timestamp := 0, cityName := "Berlin" }

/-- First of two sessions generated within the same millisecond. -/
def c9DataA : CalendarData :=
  { content := [], eventCount := 1, timestamp := 0, cityName := "A" }

/-- Second of two sessions generated within the same millisecond. -/
def c9DataB : CalendarData :=
  { content := [], eventCount := 2, timestamp := 0, cityName := "B" }

/-- A normalized event whose timestamps predate the distribution window. -/
def sampleEvent : NormalizedEvent :=
  { title := "Event", startDate := some (-1), endDate := some (-1) }

/-- A normalized event with timestamps different from `sampleEvent`. -/
def sampleEvent2 : NormalizedEvent :=
  { title := "Event", startDate := some 5, endDate := some 6 }

/-- 141 normalized events, one more than the distribution window holds. -/
def c7Input : List NormalizedEvent := List.replicate 141 sampleEvent

/-- A provider record at the query center. -/
def c4EventNear : RawEvent := { location := some [0, 0] }

/-- A provider record 5 degrees away from the query center. -/
def c4EventFar : RawEvent := { location := some [5, 5] }

/-! ## Theorems -/

/-! ### C2 — date resolution order of the normalizer -/

/-- C2: the claim "prefer the locale-local fields `start_local`/`end_local`
over the UTC fields `start`/`end`" is false on the code: on a record carrying
both fields, `normalizeEvents` resolves the start to the UTC `start` field
(`event.start || event.start_local || event.date`), not to `start_local` as
the spec-side resolution order would. -/
theorem c2_counterexample :
    (normalizeEvent c2CounterEvent).startDate ≠ specResolveStart c2CounterEvent := by
  simp [normalizeEvent, specResolveStart, c2CounterEvent]

/-- C2 (amended): the normalizer prefers the UTC fields `start`/`end` over the
locale-local fields `start_local`/`end_local`, and falls back to the generic
`date` field only when both timed fields are absent. -/
theorem c2_date_resolution (e : RawEvent) :
    (∀ s, e.start = some s → (normalizeEvent e).startDate = some s) ∧
    (e.start = none → (normalizeEvent e).startDate = (e.start_local <|> e.date)) ∧
    (∀ t, e.«end» = some t → (normalizeEvent e).endDate = some t) ∧
    (e.«end» = none → (normalizeEvent e).endDate = (e.end_local <|> e.date)) := by
  refine ⟨fun s hs => ?_, fun hs => ?_, fun t ht => ?_, fun ht => ?_⟩
  · simp [normalizeEvent, hs]
  · simp [normalizeEvent, hs]
  · simp [normalizeEvent, ht]
  · simp [normalizeEvent, ht]

/-- Witness for `c2_date_resolution`: all four resolution cases, at the record
carrying both timed start fields and at the record carrying only `date`. -/
theorem c2_witness :
    (normalizeEvent c2CounterEvent).startDate = some 1000 ∧
    (normalizeEvent c2CounterEvent).endDate = some 3000 ∧
    (normalizeEvent c6CounterEvent).startDate
        = (c6CounterEvent.start_local <|> c6CounterEvent.date) ∧
    (normalizeEvent c6CounterEvent).endDate
        = (c6CounterEvent.end_local <|> c6CounterEvent.date) :=
  ⟨(c2_date_resolution c2CounterEvent).1 1000 rfl,
   (c2_date_resolution c2CounterEvent).2.2.1 3000 rfl,
   (c2_date_resolution c6CounterEvent).2.1 rfl,
   (c2_date_resolution c6CounterEvent).2.2.2 rfl⟩

/-! ### C1 — session TTL observed at `get` -/

/-- The minted key is the `Date.now()` reading. -/
theorem storePut_fst (T : ℤ) (data : CalendarData) (s : Store) :
    (storePut T data s).1 = T := rfl

/-- Pointwise description of the store after a put. -/
theorem storePut_apply (T : ℤ) (data : CalendarData) (s : Store) (key : ℤ) :
    (storePut T data s).2 key =
      if key < T - 10 * 60 * 1000 then none
      else if key = T then some data else s key := rfl

/-- A put stores its payload at the minted key. -/
theorem storePut_apply_self (T : ℤ) (data : CalendarData) (s : Store) :
    (storePut T data s).2 T = some data := by
  rw [storePut_apply, if_neg (by omega), if_pos rfl]

/-- The get on a present key returns the entry and deletes it after the grace
delay. -/
theorem storeGet_of_some {k : ℤ} {s : Store} {data : CalendarData}
    (h : s k = some data) :
    storeGet k s = (some data, fun key => if key = k then none else s key) := by
  unfold storeGet
  rw [h]

/-- The get on an absent key is the NotFound branch. -/
theorem storeGet_of_none {k : ℤ} {s : Store} (h : s k = none) :
    storeGet k s = (none, s) := by
  unfold storeGet
  rw [h]

/-- C1: the claim "a get at T+11min returns a NotFound condition, regardless
of whether any other put occurred in between" is false on the code: the
download handler checks only presence, never expiry, and the 10-minute sweep
runs only inside `put`.  With a session stored at `T = 0` and no intervening
`put`, the store is unchanged at `T+11min` and the `get` still returns the
entry instead of NotFound. -/
theorem c1_counterexample :
    (storeGet (storePut 0 c1Data emptyStore).1 (storePut 0 c1Data emptyStore).2).1
      = some c1Data := by
  rw [storePut_fst, storeGet_of_some (storePut_apply_self 0 c1Data emptyStore)]

/-- C1 (amended): an entry put at time `T` is returned by any later `get`
(in particular at `T+9min` as well as at `T+11min`) as long as no further
`put` ran after `T+10min`; a `put` at a time beyond `T+10min` purges the
entry, making a subsequent `get` return NotFound; and a successful `get`
removes the entry once the 1-second grace deletion fires. -/
theorem c1_session_lifecycle (T Tp : ℤ) (data datap : CalendarData) (s : Store) :
    (storeGet (storePut T data s).1 (storePut T data s).2).1 = some data ∧
    (T + 10 * 60 * 1000 < Tp →
      (storeGet T (storePut Tp datap (storePut T data s).2).2).1 = none) ∧
    (∀ k (st : Store), st k = some data → (storeGet k st).2 k = none) := by
  refine ⟨?_, fun hT => ?_, fun k st hst => ?_⟩
  · rw [storePut_fst, storeGet_of_some (storePut_apply_self T data s)]
  · have h2 : (storePut Tp datap (storePut T data s).2).2 T = none := by
      rw [storePut_apply, if_pos (by omega)]
    rw [storeGet_of_none h2]
  · rw [storeGet_of_some hst]
    simp

/-- Witness for `c1_session_lifecycle`: session put at `T = 0`, second put at
`T = 11min`, consumption from a singleton store. -/
theorem c1_witness :
    (storeGet (storePut 0 c1Data emptyStore).1 (storePut 0 c1Data emptyStore).2).1
        = some c1Data ∧
    (storeGet 0 (storePut 660000 c1Data (storePut 0 c1Data emptyStore).2).2).1 = none ∧
    (storeGet 0 (fun _ => some c1Data)).2 0 = none := by
  obtain ⟨h1, h2, h3⟩ := c1_session_lifecycle 0 660000 c1Data c1Data emptyStore
  exact ⟨h1, h2 (by omega), h3 0 _ rfl⟩

/-! ### C9 — freshness of minted session keys -/

/-- C9: the claim "two put operations never yield the same key" is false on
the code: the key is the bare `Date.now()` reading, so two puts within the
same millisecond mint the same key, and the later one silently overwrites the
earlier session. -/
theorem c9_counterexample :
    (storePut 0 c9DataB (storePut 0 c9DataA emptyStore).2).1
        = (storePut 0 c9DataA emptyStore).1 ∧
    (storePut 0 c9DataB (storePut 0 c9DataA emptyStore).2).2
        (storePut 0 c9DataA emptyStore).1 = some c9DataB ∧
    c9DataA ≠ c9DataB := by
  refine ⟨rfl, storePut_apply_self 0 c9DataB _, ?_⟩
  simp [c9DataA, c9DataB]

/-- C9 (amended): the minted key is exactly the millisecond timestamp of the
put, so two puts mint the same key if and only if they read the same
`Date.now()` value; at distinct times keys are distinct, but a second put in
the same millisecond overwrites the earlier session at the shared key. -/
theorem c9_key_freshness (T1 T2 : ℤ) (d1 d2 : CalendarData) (s1 s2 : Store) :
    ((storePut T1 d1 s1).1 = (storePut T2 d2 s2).1 ↔ T1 = T2) ∧
    (T1 = T2 → (storePut T2 d2 (storePut T1 d1 s1).2).2 T1 = some d2) := by
  refine ⟨Iff.rfl, fun hT => ?_⟩
  subst hT
  exact storePut_apply_self T1 d2 _

/-- Witness for `c9_key_freshness` with both puts in millisecond 0. -/
theorem c9_witness :
    ((storePut 0 c9DataA emptyStore).1 = (storePut 0 c9DataB emptyStore).1 ↔ (0:ℤ) = 0) ∧
    (storePut 0 c9DataB (storePut 0 c9DataA emptyStore).2).2 0 = some c9DataB := by
  obtain ⟨h1, h2⟩ := c9_key_freshness 0 0 c9DataA c9DataB emptyStore emptyStore
  exact ⟨h1, h2 rfl⟩

/-! ### Synthesizer bounds (C5) and the normalizer invariant (C6) -/

/-- A constant-zero tape is a valid `Math.random` source. -/
theorem validRand_rnd0 : ValidRand rnd0 :=
  fun _ => ⟨le_refl 0, by norm_num [rnd0]⟩

/-- A `Math.floor(r * k)` index is within bounds for a valid tape value. -/
theorem jsFloorIdx_lt {r : ℚ} (h0 : 0 ≤ r) (h1 : r < 1) {k : ℕ} (hk : 0 < k) :
    jsFloorIdx r k < k := by
  have hkq : (0:ℚ) < (k:ℚ) := by exact_mod_cast hk
  have hlt : r * k < (k:ℚ) := by nlinarith
  have hfl : ⌊r * (k:ℚ)⌋ < (k:ℤ) := Int.floor_lt.2 (by exact_mod_cast hlt)
  have hnn : 0 ≤ ⌊r * (k:ℚ)⌋ := Int.floor_nonneg.2 (by positivity)
  unfold jsFloorIdx
  omega

/-- A timestamp `d·dayMs + tod` with `tod ∈ [0, dayMs)` falls on calendar day
`d`. -/
theorem calendarDay_day_add {d : ℤ} {tod : ℚ} (h0 : 0 ≤ tod) (h1 : tod < dayMs) :
    calendarDay (d * dayMs + tod) = d := by
  have hdm : (dayMs:ℚ) ≠ 0 := by norm_num [dayMs]
  have hdm' : (0:ℚ) < dayMs := by norm_num [dayMs]
  unfold calendarDay
  rw [add_div, mul_div_cancel_right₀ _ hdm]
  have hx : ⌊tod / dayMs⌋ = 0 :=
    Int.floor_eq_zero_iff.2 ⟨by positivity, by rwa [div_lt_one hdm']⟩
  rw [show ((d:ℚ) : ℚ) = ((d:ℤ) : ℚ) from rfl, Int.floor_int_add, hx, add_zero]

/-- Start/end structure of one synthesized event: it starts on its intended
calendar day and strictly before it ends. -/
theorem synthOneEvent_start_end {rnd : ℕ → ℚ} (hv : ValidRand rnd) (c : ℕ)
    (cityName : String) (categoryList : List String) (d : ℤ) :
    ∃ s t : ℚ, (synthOneEvent rnd c cityName categoryList d).start = some s ∧
      (synthOneEvent rnd c cityName categoryList d).«end» = some t ∧
      calendarDay s = d ∧ s < t := by
  have hhour : jsFloorIdx (rnd (c+2)) 12 < 12 :=
    jsFloorIdx_lt (hv (c+2)).1 (hv (c+2)).2 (by norm_num)
  set startHour : ℕ := 9 + jsFloorIdx (rnd (c+2)) 12 with hH
  set startMinute : ℕ := if rnd (c+3) > 1/2 then 0 else 30 with hM
  have hH20 : startHour ≤ 20 := by omega
  have hM30 : startMinute ≤ 30 := by
    rw [hM]; split <;> omega
  have hHq : (startHour : ℚ) ≤ 20 := by exact_mod_cast hH20
  have hMq : (startMinute : ℚ) ≤ 30 := by exact_mod_cast hM30
  refine ⟨_, _, rfl, rfl, ?_, ?_⟩
  · apply calendarDay_day_add (by positivity)
    have : ((startHour:ℚ) * 60 + startMinute) * 60000 ≤ 73800000 := by nlinarith
    calc ((startHour:ℚ) * 60 + startMinute) * 60000 ≤ 73800000 := this
    _ < dayMs := by norm_num [dayMs]
  · have hr : 0 ≤ rnd (c+4) := (hv (c+4)).1
    nlinarith

/-- Every event of the inner per-day loop is some `synthOneEvent` on that
day. -/
theorem synthEventsForDay_mem {rnd : ℕ → ℚ} {cityName : String}
    {categoryList : List String} {d : ℤ} {e : RawEvent} :
    ∀ {n c}, e ∈ synthEventsForDay rnd cityName categoryList d c n →
      ∃ cc, e = synthOneEvent rnd cc cityName categoryList d := by
  intro n
  induction n with
  | zero => intro c h; simp [synthEventsForDay] at h
  | succ m ih =>
      intro c h
      rw [synthEventsForDay] at h
      rcases List.mem_cons.1 h with h1 | h2
      · exact ⟨c, h1⟩
      · exact ih h2

/-- Every event of the day loop is some `synthOneEvent` on day
`today + 1 + d` for an offset `d` in the iterated list. -/
theorem synthAllDays_mem {rnd : ℕ → ℚ} {cityName : String}
    {categoryList : List String} {today : ℤ} {e : RawEvent} :
    ∀ {ds : List ℕ} {c}, e ∈ synthAllDays rnd cityName categoryList today ds c →
      ∃ d ∈ ds, ∃ cc, e = synthOneEvent rnd cc cityName categoryList (today + 1 + d) := by
  intro ds
  induction ds with
  | nil => intro c h; simp [synthAllDays] at h
  | cons d ds ih =>
      intro c h
      rw [synthAllDays] at h
      rcases List.mem_append.1 h with h1 | h2
      · rcases synthEventsForDay_mem h1 with ⟨cc, hcc⟩
        exact ⟨d, List.mem_cons_self d ds, cc, hcc⟩
      · rcases ih h2 with ⟨d', hd', cc, hcc⟩
        exact ⟨d', List.mem_cons_of_mem d hd', cc, hcc⟩

/-- C5: for every city name, category string, and week count, the fallback
synthesizer returns at most 140 events, and every returned event starts on a
calendar day no earlier than tomorrow (`today + 1`). -/
theorem c5_fallback_bounds (rnd : ℕ → ℚ) (today : ℤ) (cityNameOpt : Option String)
    (categories : String) (weeks : ℕ) (hv : ValidRand rnd) :
    (generateLocationEvents rnd today cityNameOpt categories weeks).length ≤ 140 ∧
    ∀ e ∈ generateLocationEvents rnd today cityNameOpt categories weeks,
      ∃ s, e.start = some s ∧ today + 1 ≤ calendarDay s := by
  constructor
  · unfold generateLocationEvents
    simp
  · intro e he
    have he' := List.take_subset 140 _ he
    rcases synthAllDays_mem he' with ⟨d, _, cc, rfl⟩
    rcases synthOneEvent_start_end hv cc _ _ (today + 1 + d) with ⟨s, t, hs, _, hday, _⟩
    exact ⟨s, hs, by omega⟩

/-- Witness for `c5_fallback_bounds`: the constant-zero tape, one week,
category `festivals`. -/
theorem c5_witness :
    (generateLocationEvents rnd0 0 none "festivals" 1).length ≤ 140 ∧
    ∀ e ∈ generateLocationEvents rnd0 0 none "festivals" 1,
      ∃ s, e.start = some s ∧ 0 + 1 ≤ calendarDay s :=
  c5_fallback_bounds rnd0 0 none "festivals" 1 validRand_rnd0

/-- C6: the claim "every NormalizedEvent satisfies `start < end` for every
input record" is false on the code: `normalizeEvents` copies the resolved
timestamps without enforcing the invariant, and a record carrying only the
generic `date` field resolves both `startDate` and `endDate` to that same
instant. -/
theorem c6_counterexample :
    ¬ ∃ s t : ℚ, (normalizeEvent c6CounterEvent).startDate = some s ∧
      (normalizeEvent c6CounterEvent).endDate = some t ∧ s < t := by
  rintro ⟨s, t, hs, ht, hlt⟩
  simp [normalizeEvent, c6CounterEvent] at hs ht
  rw [← hs, ← ht] at hlt
  exact lt_irrefl 0 hlt

/-- C6 (amended): the normalizer does not enforce `start < end` (a date-only
record yields `start = end`); the invariant does hold for every record the
fallback synthesizer produces, whose resolved end always strictly exceeds its
resolved start. -/
theorem c6_normalized_invariant (rnd : ℕ → ℚ) (today : ℤ)
    (cityNameOpt : Option String) (categories : String) (weeks : ℕ)
    (hv : ValidRand rnd) :
    ∀ ev ∈ normalizeEvents (generateLocationEvents rnd today cityNameOpt categories weeks),
      ∃ s t : ℚ, ev.startDate = some s ∧ ev.endDate = some t ∧ s < t := by
  intro ev hev
  rcases List.mem_map.1 hev with ⟨e, he, rfl⟩
  have he' := List.take_subset 140 _ he
  rcases synthAllDays_mem he' with ⟨d, _, cc, rfl⟩
  rcases synthOneEvent_start_end hv cc ((jsOrS cityNameOpt (some "Local Area")).getD "")
      (jsSplitComma categories) (today + 1 + d) with ⟨s, t, hs, ht, _, hlt⟩
  exact ⟨s, t, by simp [normalizeEvent, hs], by simp [normalizeEvent, ht], hlt⟩

/-- Witness for `c6_normalized_invariant` on the constant-zero tape. -/
theorem c6_witness :
    ValidRand rnd0 ∧
    ∀ ev ∈ normalizeEvents (generateLocationEvents rnd0 0 none "festivals" 1),
      ∃ s t : ℚ, ev.startDate = some s ∧ ev.endDate = some t ∧ s < t :=
  ⟨validRand_rnd0, c6_normalized_invariant rnd0 0 none "festivals" 1 validRand_rnd0⟩

/-! ### The day-distribution stage (C8, and shared by C3/C7) -/

/-- The distribution loop rewrites only timestamps, never the title. -/
theorem distributeOne_title (rnd : ℕ → ℚ) (c : ℕ) (d : ℤ) (ev : NormalizedEvent) :
    (distributeOne rnd c d ev).title = ev.title := rfl

/-- The rewritten timestamps do not depend on the incoming event. -/
theorem distributeOne_times (rnd : ℕ → ℚ) (c : ℕ) (d : ℤ) (ev₁ ev₂ : NormalizedEvent) :
    evTimes (distributeOne rnd c d ev₁) = evTimes (distributeOne rnd c d ev₂) := rfl

/-- A distributed event starts on the day the loop placed it on: the random
hour is in `[8, 21]` and the minute in `{0, 15, 30, 45}`, both within the
day. -/
theorem distributeOne_day {rnd : ℕ → ℚ} (hv : ValidRand rnd) (c : ℕ) (d : ℤ)
    (ev : NormalizedEvent) : eventDay (distributeOne rnd c d ev) = d := by
  have hhour : jsFloorIdx (rnd c) 14 < 14 :=
    jsFloorIdx_lt (hv c).1 (hv c).2 (by norm_num)
  have hmin : jsFloorIdx (rnd (c+1)) 4 < 4 :=
    jsFloorIdx_lt (hv (c+1)).1 (hv (c+1)).2 (by norm_num)
  set hour : ℕ := 8 + jsFloorIdx (rnd c) 14 with hH
  set minute : ℕ := jsFloorIdx (rnd (c+1)) 4 * 15 with hM
  have hH21 : hour ≤ 21 := by omega
  have hM45 : minute ≤ 45 := by omega
  have hHq : (hour : ℚ) ≤ 21 := by exact_mod_cast hH21
  have hMq : (minute : ℚ) ≤ 45 := by exact_mod_cast hM45
  show calendarDay (Option.getD (some (getRandomTime rnd c d)) 0) = d
  rw [Option.getD_some]
  unfold getRandomTime
  rw [← hH, ← hM]
  apply calendarDay_day_add (by positivity)
  have : ((hour:ℚ) * 60 + minute) * 60000 ≤ 78300000 := by nlinarith
  calc ((hour:ℚ) * 60 + minute) * 60000 ≤ 78300000 := this
  _ < dayMs := by norm_num [dayMs]

/-- The inner day loop consumes `min slots rest.length` events and leaves the
corresponding drop of the list. -/
theorem takeDay_len_rest (rnd : ℕ → ℚ) (d : ℤ) :
    ∀ slots c (rest : List NormalizedEvent),
      (takeDay rnd d slots c rest).1.length = min slots rest.length ∧
      (takeDay rnd d slots c rest).2.2 = rest.drop slots := by
  intro slots
  induction slots with
  | zero => intro c rest; simp [takeDay]
  | succ m ih =>
      intro c rest
      cases rest with
      | nil => simp [takeDay]
      | cons e rest =>
          obtain ⟨ih1, ih2⟩ := ih (c + 3) rest
          simp [takeDay, ih1, ih2]
          omega

/-- The inner day loop preserves titles in input order. -/
theorem takeDay_titles (rnd : ℕ → ℚ) (d : ℤ) :
    ∀ slots c (rest : List NormalizedEvent),
      (takeDay rnd d slots c rest).1.map NormalizedEvent.title
        = (rest.take slots).map NormalizedEvent.title := by
  intro slots
  induction slots with
  | zero => intro c rest; simp [takeDay]
  | succ m ih =>
      intro c rest
      cases rest with
      | nil => simp [takeDay]
      | cons e rest => simp [takeDay, ih (c + 3) rest, distributeOne_title]

/-- Every event placed by the inner day loop is a `distributeOne` on that
day. -/
theorem takeDay_mem (rnd : ℕ → ℚ) (d : ℤ) :
    ∀ slots c (rest : List NormalizedEvent),
      ∀ e ∈ (takeDay rnd d slots c rest).1,
        ∃ cc ev, e = distributeOne rnd cc d ev := by
  intro slots
  induction slots with
  | zero => intro c rest e he; simp [takeDay] at he
  | succ m ih =>
      intro c rest e he
      cases rest with
      | nil => simp [takeDay] at he
      | cons ev rest =>
          simp only [takeDay, List.mem_cons] at he
          rcases he with he | he
          · exact ⟨c, ev, he⟩
          · exact ih (c + 3) rest e he

/-- The timestamps placed by the inner day loop depend only on the count of
the remaining events, not on their contents. -/
theorem takeDay_times (rnd : ℕ → ℚ) (d : ℤ) :
    ∀ slots c (l₁ l₂ : List NormalizedEvent), l₁.length = l₂.length →
      (takeDay rnd d slots c l₁).1.map evTimes = (takeDay rnd d slots c l₂).1.map evTimes ∧
      (takeDay rnd d slots c l₁).2.1 = (takeDay rnd d slots c l₂).2.1 ∧
      (takeDay rnd d slots c l₁).2.2.length = (takeDay rnd d slots c l₂).2.2.length := by
  intro slots
  induction slots with
  | zero => intro c l₁ l₂ h; simp [takeDay, h]
  | succ m ih =>
      intro c l₁ l₂ h
      cases l₁ with
      | nil =>
          cases l₂ with
          | nil => simp [takeDay]
          | cons b l₂ => simp at h
      | cons a l₁ =>
          cases l₂ with
          | nil => simp at h
          | cons b l₂ =>
              simp only [List.length_cons, Nat.succ.injEq] at h
              obtain ⟨ih1, ih2, ih3⟩ := ih (c + 3) l₁ l₂ h
              simp [takeDay, ih1, ih2, ih3, distributeOne_times rnd c d a b]

/-- Every event placed by the inner day loop falls on the loop's day. -/
theorem takeDay_day {rnd : ℕ → ℚ} (hv : ValidRand rnd) (d : ℤ)
    (slots c : ℕ) (rest : List NormalizedEvent) :
    ∀ e ∈ (takeDay rnd d slots c rest).1, eventDay e = d := by
  intro e he
  rcases takeDay_mem rnd d slots c rest e he with ⟨cc, ev, rfl⟩
  exact distributeOne_day hv cc d ev

/-- The outer loop places `min (5·daysLeft) rest.length` events. -/
theorem distributeDays_len (rnd : ℕ → ℚ) (today : ℤ) :
    ∀ daysLeft dayOffset c (rest : List NormalizedEvent),
      (distributeDays rnd today dayOffset daysLeft c rest).length
        = min (5 * daysLeft) rest.length := by
  intro daysLeft
  induction daysLeft with
  | zero => intro dayOffset c rest; simp [distributeDays]
  | succ m ih =>
      intro dayOffset c rest
      cases rest with
      | nil => simp [distributeDays]
      | cons e rest =>
          obtain ⟨h1, h2⟩ := takeDay_len_rest rnd (today + dayOffset) 5 c (e :: rest)
          simp only [distributeDays, List.length_append, h1, h2,
            ih (dayOffset + 1) _ ((e :: rest).drop 5)]
          simp [List.length_drop]
          omega

/-- The outer loop consumes the input in order: its titles are the titles of
the first `5·daysLeft` input events. -/
theorem distributeDays_titles (rnd : ℕ → ℚ) (today : ℤ) :
    ∀ daysLeft dayOffset c (rest : List NormalizedEvent),
      (distributeDays rnd today dayOffset daysLeft c rest).map NormalizedEvent.title
        = (rest.take (5 * daysLeft)).map NormalizedEvent.title := by
  intro daysLeft
  induction daysLeft with
  | zero => intro dayOffset c rest; simp [distributeDays]
  | succ m ih =>
      intro dayOffset c rest
      cases rest with
      | nil => simp [distributeDays]
      | cons e rest =>
          obtain ⟨_, h2⟩ := takeDay_len_rest rnd (today + dayOffset) 5 c (e :: rest)
          have h3 := takeDay_titles rnd (today + dayOffset) 5 c (e :: rest)
          simp only [distributeDays, List.map_append, h2, h3,
            ih (dayOffset + 1) _ ((e :: rest).drop 5)]
          rw [show 5 * (m + 1) = 5 + 5 * m by ring, List.take_add, List.map_append]

/-- Every event placed by the outer loop falls inside its remaining day
window. -/
theorem distributeDays_day_bounds {rnd : ℕ → ℚ} (hv : ValidRand rnd) (today : ℤ) :
    ∀ daysLeft dayOffset c (rest : List NormalizedEvent),
      ∀ e ∈ distributeDays rnd today dayOffset daysLeft c rest,
        today + dayOffset ≤ eventDay e ∧ eventDay e < today + dayOffset + daysLeft := by
  intro daysLeft
  induction daysLeft with
  | zero => intro dayOffset c rest e he; simp [distributeDays] at he
  | succ m ih =>
      intro dayOffset c rest e he
      cases rest with
      | nil => simp [distributeDays] at he
      | cons ev rest =>
          simp only [distributeDays, List.mem_append] at he
          rcases he with he | he
          · have := takeDay_day hv (today + dayOffset) 5 c (ev :: rest) e he
            omega
          · have := ih (dayOffset + 1) _ _ e he
            push_cast at this ⊢
            omega

/-- The outer loop never places more than five events on any one calendar
day. -/
theorem distributeDays_day_cap {rnd : ℕ → ℚ} (hv : ValidRand rnd) (today : ℤ) :
    ∀ daysLeft dayOffset c (rest : List NormalizedEvent) (dd : ℤ),
      (distributeDays rnd today dayOffset daysLeft c rest).countP
        (fun e => decide (eventDay e = dd)) ≤ 5 := by
  intro daysLeft
  induction daysLeft with
  | zero => intro dayOffset c rest dd; simp [distributeDays]
  | succ m ih =>
      intro dayOffset c rest dd
      cases rest with
      | nil => simp [distributeDays]
      | cons ev rest =>
          rw [distributeDays]
          simp only [List.countP_append]
          by_cases hdd : dd = today + dayOffset
          · have htail :
                (distributeDays rnd today (dayOffset + 1) m
                  (takeDay rnd (today + ↑dayOffset) 5 c (ev :: rest)).2.1
                  (takeDay rnd (today + ↑dayOffset) 5 c (ev :: rest)).2.2).countP
                  (fun e => decide (eventDay e = dd)) = 0 := by
              rw [List.countP_eq_zero]
              intro e he
              have hb := distributeDays_day_bounds hv today m (dayOffset + 1) _ _ e he
              simp only [decide_eq_true_eq]
              push_cast at hb
              omega
            have hhead : (takeDay rnd (today + ↑dayOffset) 5 c (ev :: rest)).1.countP
                (fun e => decide (eventDay e = dd))
                ≤ (takeDay rnd (today + ↑dayOffset) 5 c (ev :: rest)).1.length :=
              List.countP_le_length _
            have hlen := (takeDay_len_rest rnd (today + ↑dayOffset) 5 c (ev :: rest)).1
            omega
          · have hhead :
                (takeDay rnd (today + ↑dayOffset) 5 c (ev :: rest)).1.countP
                  (fun e => decide (eventDay e = dd)) = 0 := by
              rw [List.countP_eq_zero]
              intro e he
              have := takeDay_day hv (today + ↑dayOffset) 5 c (ev :: rest) e he
              simp only [decide_eq_true_eq]
              omega
            have htail := ih (dayOffset + 1)
              (takeDay rnd (today + ↑dayOffset) 5 c (ev :: rest)).2.1
              (takeDay rnd (today + ↑dayOffset) 5 c (ev :: rest)).2.2 dd
            omega

/-- The timestamps the outer loop places depend only on how many events
remain, never on their contents. -/
theorem distributeDays_times (rnd : ℕ → ℚ) (today : ℤ) :
    ∀ daysLeft dayOffset c (l₁ l₂ : List NormalizedEvent), l₁.length = l₂.length →
      (distributeDays rnd today dayOffset daysLeft c l₁).map evTimes
        = (distributeDays rnd today dayOffset daysLeft c l₂).map evTimes := by
  intro daysLeft
  induction daysLeft with
  | zero => intro dayOffset c l₁ l₂ h; simp [distributeDays]
  | succ m ih =>
      intro dayOffset c l₁ l₂ h
      cases l₁ with
      | nil =>
          cases l₂ with
          | nil => rfl
          | cons b l₂ => simp at h
      | cons a l₁ =>
          cases l₂ with
          | nil => simp at h
          | cons b l₂ =>
              obtain ⟨h1, h2, h3⟩ :=
                takeDay_times rnd (today + ↑dayOffset) 5 c (a :: l₁) (b :: l₂) (by simpa using h)
              simp only [distributeDays, List.map_append, h1, h2,
                ih (dayOffset + 1) _ _ _ h3]

/-- Serialization emits exactly one block per distributed event. -/
theorem serializeFrom_length (nowAt : ℕ → ℕ) :
    ∀ (l : List NormalizedEvent) i, (serializeFrom nowAt i l).length = l.length := by
  intro l
  induction l with
  | nil => intro i; rfl
  | cons e l ih => intro i; simp [serializeFrom, ih (i + 1)]

/-- Serialization copies each event's timestamps into its block. -/
theorem serializeFrom_times (nowAt : ℕ → ℕ) :
    ∀ (l : List NormalizedEvent) i,
      (serializeFrom nowAt i l).map serTimes = l.map evTimes := by
  intro l
  induction l with
  | nil => intro i; rfl
  | cons e l ih => intro i; simp [serializeFrom, ih (i + 1), serTimes, createEvent, evTimes]

/-- Serialization copies each event's title into its block's summary. -/
theorem serializeFrom_summaries (nowAt : ℕ → ℕ) :
    ∀ (l : List NormalizedEvent) i,
      (serializeFrom nowAt i l).map SerializedEvent.summary = l.map NormalizedEvent.title := by
  intro l
  induction l with
  | nil => intro i; rfl
  | cons e l ih => intro i; simp [serializeFrom, ih (i + 1), createEvent]

/-- The calendar text contains `min n 140` event blocks for `n` input
events. -/
theorem generateICalendar_length (rnd : ℕ → ℚ) (today : ℤ) (nowAt : ℕ → ℕ)
    (events : List NormalizedEvent) :
    (generateICalendar rnd today nowAt events).length = min events.length 140 := by
  unfold generateICalendar distributeEvents
  rw [serializeFrom_length, distributeDays_len]
  omega

/-- Serialized timestamps are a function of the tape, the start day and the
event count only. -/
theorem generateICalendar_times_dep (rnd : ℕ → ℚ) (today : ℤ) (nowAt : ℕ → ℕ)
    (evs₁ evs₂ : List NormalizedEvent) (hlen : evs₁.length = evs₂.length) :
    (generateICalendar rnd today nowAt evs₁).map serTimes
      = (generateICalendar rnd today nowAt evs₂).map serTimes := by
  unfold generateICalendar distributeEvents
  rw [serializeFrom_times, serializeFrom_times]
  exact distributeDays_times rnd today 28 0 0 evs₁ evs₂ hlen

/-! ### C8 — the day-distribution contract -/

/-- C8: for every input list, the distributor places at most 5 events on any
single calendar day, places events only on days `today .. today+27`, consumes
the input in order (the placed titles are the titles of the first 140 input
events in order), and drops everything past position 140: exactly
`min n 140` events are placed. -/
theorem c8_distribution_contract (rnd : ℕ → ℚ) (today : ℤ)
    (events : List NormalizedEvent) (hv : ValidRand rnd) :
    (∀ dd : ℤ, (distributeEvents rnd today events).countP
        (fun e => decide (eventDay e = dd)) ≤ 5) ∧
    (∀ e ∈ distributeEvents rnd today events,
        today ≤ eventDay e ∧ eventDay e < today + 28) ∧
    (distributeEvents rnd today events).map NormalizedEvent.title
        = (events.take 140).map NormalizedEvent.title ∧
    (distributeEvents rnd today events).length = min events.length 140 := by
  refine ⟨fun dd => ?_, fun e he => ?_, ?_, ?_⟩
  · exact distributeDays_day_cap hv today 28 0 0 events dd
  · have := distributeDays_day_bounds hv today 28 0 0 events e he
    push_cast at this
    omega
  · have := distributeDays_titles rnd today 28 0 0 events
    simpa using this
  · unfold distributeEvents
    rw [distributeDays_len]
    omega

/-- Witness for `c8_distribution_contract` on the constant-zero tape. -/
theorem c8_witness :
    (∀ dd : ℤ, (distributeEvents rnd0 0 [sampleEvent]).countP
        (fun e => decide (eventDay e = dd)) ≤ 5) ∧
    (∀ e ∈ distributeEvents rnd0 0 [sampleEvent],
        0 ≤ eventDay e ∧ eventDay e < 0 + 28) ∧
    (distributeEvents rnd0 0 [sampleEvent]).map NormalizedEvent.title
        = ([sampleEvent].take 140).map NormalizedEvent.title ∧
    (distributeEvents rnd0 0 [sampleEvent]).length = min [sampleEvent].length 140 :=
  c8_distribution_contract rnd0 0 [sampleEvent] validRand_rnd0

/-! ### C3 — the distributor runs on the on-demand path too -/

/-- C3: the claim "on the on-demand request path the start/end timestamps of
normalized events are carried unchanged into the serialized calendar output"
is false on the code: the on-demand handler serializes through
`generateICalendar`, whose distribution loop overwrites every timestamp.  Two
single-event inputs with different timestamps produce blocks with identical
timestamps, so the output cannot equal its input's timestamps in both
cases. -/
theorem c3_counterexample :
    ¬ (∀ evs : List NormalizedEvent,
        (generateICalendar rnd0 0 nowAt0 evs).map serTimes = evs.map evTimes) := by
  intro H
  have h12 := generateICalendar_times_dep rnd0 0 nowAt0 [sampleEvent] [sampleEvent2] rfl
  rw [H [sampleEvent], H [sampleEvent2]] at h12
  simp [sampleEvent, sampleEvent2, evTimes] at h12
  rcases h12 with ⟨h1, -⟩
  norm_num at h1

/-- C3 (amended): the time distributor is applied on every serialization,
including the on-demand request path: the serialized start/end timestamps are
a function of the random tape, the current day and the input event count
alone, and never depend on the normalized events' own timestamps. -/
theorem c3_on_demand_distribution (rnd : ℕ → ℚ) (today : ℤ) (nowAt : ℕ → ℕ)
    (evs₁ evs₂ : List NormalizedEvent) (hlen : evs₁.length = evs₂.length) :
    (generateICalendar rnd today nowAt evs₁).map serTimes
      = (generateICalendar rnd today nowAt evs₂).map serTimes :=
  generateICalendar_times_dep rnd today nowAt evs₁ evs₂ hlen

/-- Witness for `c3_on_demand_distribution`: two events that differ in their
timestamps. -/
theorem c3_witness :
    (generateICalendar rnd0 0 nowAt0 [sampleEvent]).map serTimes
      = (generateICalendar rnd0 0 nowAt0 [sampleEvent2]).map serTimes :=
  c3_on_demand_distribution rnd0 0 nowAt0 [sampleEvent] [sampleEvent2] rfl

/-! ### UID uniqueness (C7)

`${n}` renders a natural number as its decimal digit string; the UID
`predicthq-<t>-<index>` therefore determines its index as the digit string
after the last dash. -/

/-- Every decimal digit is below 10. -/
theorem decDigits_lt_ten : ∀ n, ∀ d ∈ decDigits n, d < 10 := by
  intro n
  induction n using Nat.strong_induction_on with
  | _ n ih =>
    match n with
    | 0 => simp [decDigits]
    | m + 1 =>
        rw [decDigits]
        intro d hd
        rcases List.mem_cons.1 hd with rfl | hd
        · omega
        · exact ih ((m + 1) / 10) (by omega) d hd

/-- The digit expansion evaluates back to its number. -/
theorem decEval_decDigits : ∀ n, decEval (decDigits n) = n := by
  intro n
  induction n using Nat.strong_induction_on with
  | _ n ih =>
    match n with
    | 0 => simp [decDigits, decEval]
    | m + 1 =>
        rw [decDigits]
        simp only [decEval]
        rw [ih ((m + 1) / 10) (by omega)]
        omega

/-- Digit expansions are injective. -/
theorem decDigits_inj {m n : ℕ} (h : decDigits m = decDigits n) : m = n := by
  have := congrArg decEval h
  rwa [decEval_decDigits, decEval_decDigits] at this

/-- Digit characters are injective on digits. -/
theorem digitChar_inj : ∀ d1 < 10, ∀ d2 < 10, digitChar d1 = digitChar d2 → d1 = d2 := by
  decide

/-- No digit character is the dash. -/
theorem digitChar_ne_dash : ∀ d < 10, digitChar d ≠ '-' := by decide

/-- Only the digit 0 renders as the character `0`. -/
theorem digitChar_eq_zero : ∀ d < 10, digitChar d = '0' → d = 0 := by decide

/-- Digit lists are recoverable from their character rendering. -/
theorem map_digitChar_inj :
    ∀ (l1 l2 : List ℕ), (∀ d ∈ l1, d < 10) → (∀ d ∈ l2, d < 10) →
      l1.map digitChar = l2.map digitChar → l1 = l2 := by
  intro l1
  induction l1 with
  | nil => intro l2 _ _ h; cases l2 <;> simp_all
  | cons d l1 ih =>
      intro l2 h1 h2 h
      cases l2 with
      | nil => simp at h
      | cons e l2 =>
          simp only [List.map_cons, List.cons.injEq] at h
          have hd := digitChar_inj d (h1 d (by simp)) e (h2 e (by simp)) h.1
          rw [hd, ih l2 (fun x hx => h1 x (by simp [hx])) (fun x hx => h2 x (by simp [hx])) h.2]

/-- The decimal rendering contains no dash. -/
theorem decRepr_no_dash (n : ℕ) : ∀ ch ∈ (decRepr n).data, ch ≠ '-' := by
  unfold decRepr
  split
  · intro ch hch
    have : ch = '0' := by simpa using hch
    subst this
    decide
  · intro ch hch
    have hch' : ch ∈ (decDigits n).reverse.map digitChar := hch
    rcases List.mem_map.1 hch' with ⟨d, hd, rfl⟩
    exact digitChar_ne_dash d (decDigits_lt_ten n d (List.mem_reverse.1 hd))

/-- A digit-character rendering equal to `"0"` comes from the number 0. -/
theorem digits_render_zero {k : ℕ}
    (h : (decDigits k).reverse.map digitChar = ['0']) : k = 0 := by
  rcases hrev : (decDigits k).reverse with _ | ⟨d, ds⟩
  · rw [hrev] at h; simp at h
  · rw [hrev] at h
    simp only [List.map_cons, List.cons.injEq] at h
    have hds : ds = [] := by
      rcases ds with _ | _
      · rfl
      · simp at h
    subst hds
    have hk : decDigits k = [d] := by
      have := congrArg List.reverse hrev
      simpa using this
    have hd10 : d < 10 := decDigits_lt_ten k d (by rw [hk]; simp)
    have hd0 : d = 0 := digitChar_eq_zero d hd10 h.1
    have := decEval_decDigits k
    rw [hk, hd0] at this
    simp [decEval] at this
    omega

/-- Decimal renderings are injective. -/
theorem decRepr_inj {m n : ℕ} (h : decRepr m = decRepr n) : m = n := by
  have hd : (decRepr m).data = (decRepr n).data := by rw [h]
  unfold decRepr at hd
  by_cases hm : m = 0 <;> by_cases hn : n = 0
  · omega
  · rw [if_pos hm, if_neg hn] at hd
    exact absurd (digits_render_zero hd.symm) hn
  · rw [if_neg hm, if_pos hn] at hd
    exact absurd (digits_render_zero hd) hm
  · rw [if_neg hm, if_neg hn] at hd
    have hrev := map_digitChar_inj (decDigits m).reverse (decDigits n).reverse
      (fun d hdm => decDigits_lt_ten m d (List.mem_reverse.1 hdm))
      (fun d hdn => decDigits_lt_ten n d (List.mem_reverse.1 hdn)) hd
    have : decDigits m = decDigits n := by
      have := congrArg List.reverse hrev
      simpa using this
    exact decDigits_inj this

/-- `takeWhile` stops exactly at the first failing element. -/
theorem takeWhile_append_stop (p : Char → Bool) :
    ∀ (xs : List Char) (a : Char) (ys : List Char),
      (∀ x ∈ xs, p x = true) → p a = false →
      (xs ++ a :: ys).takeWhile p = xs := by
  intro xs a ys h1 h2
  induction xs with
  | nil => simp [List.takeWhile, h2]
  | cons x xs ih =>
      simp only [List.cons_append, List.takeWhile_cons, h1 x (by simp)]
      simp [ih (fun y hy => h1 y (by simp [hy]))]

/-- In `l ++ '-' :: r` with `r` dash-free, `r` is determined as the segment
after the last dash. -/
theorem append_dash_cancel (l₁ l₂ r₁ r₂ : List Char)
    (h₁ : ∀ ch ∈ r₁, ch ≠ '-') (h₂ : ∀ ch ∈ r₂, ch ≠ '-')
    (h : l₁ ++ '-' :: r₁ = l₂ ++ '-' :: r₂) : r₁ = r₂ := by
  have hrev := congrArg List.reverse h
  simp only [List.reverse_append, List.reverse_cons, List.append_assoc,
    List.singleton_append] at hrev
  have htw := congrArg (List.takeWhile (fun ch => ch != '-')) hrev
  rw [takeWhile_append_stop (fun ch => ch != '-') r₁.reverse '-' l₁.reverse
        (fun x hx => bne_iff_ne.2 (h₁ x (List.mem_reverse.1 hx))) (by decide),
      takeWhile_append_stop (fun ch => ch != '-') r₂.reverse '-' l₂.reverse
        (fun x hx => bne_iff_ne.2 (h₂ x (List.mem_reverse.1 hx))) (by decide)] at htw
  have := congrArg List.reverse htw
  simpa using this

/-- Two equal UIDs carry the same sequence index. -/
theorem mkUid_inj_index {t1 t2 i1 i2 : ℕ} (h : mkUid t1 i1 = mkUid t2 i2) :
    i1 = i2 := by
  have key : ∀ (t i : ℕ), (mkUid t i).data
      = ("predicthq-" ++ decRepr t).data ++ '-' :: (decRepr i).data := by
    intro t i
    unfold mkUid
    simp [String.data_append]
  have hd : (mkUid t1 i1).data = (mkUid t2 i2).data := by rw [h]
  rw [key t1 i1, key t2 i2] at hd
  have hr := append_dash_cancel _ _ _ _ (decRepr_no_dash i1) (decRepr_no_dash i2) hd
  have hs : decRepr i1 = decRepr i2 := by
    cases hre1 : decRepr i1
    cases hre2 : decRepr i2
    rw [hre1, hre2] at hr
    exact congrArg String.mk hr
  exact decRepr_inj hs

/-- Each emitted UID carries an index at least the running index. -/
theorem serializeFrom_uid_mem (nowAt : ℕ → ℕ) :
    ∀ (l : List NormalizedEvent) i u,
      u ∈ (serializeFrom nowAt i l).map SerializedEvent.uid →
      ∃ j, i ≤ j ∧ u = mkUid (nowAt j) j := by
  intro l
  induction l with
  | nil => intro i u hu; simp [serializeFrom] at hu
  | cons e l ih =>
      intro i u hu
      simp only [serializeFrom, List.map_cons, List.mem_cons] at hu
      rcases hu with rfl | hu
      · exact ⟨i, le_refl i, rfl⟩
      · rcases ih (i + 1) u hu with ⟨j, hj, hu⟩
        exact ⟨j, by omega, hu⟩

/-- The emitted UID list never repeats. -/
theorem serializeFrom_uid_nodup (nowAt : ℕ → ℕ) :
    ∀ (l : List NormalizedEvent) i,
      ((serializeFrom nowAt i l).map SerializedEvent.uid).Nodup := by
  intro l
  induction l with
  | nil => intro i; simp [serializeFrom]
  | cons e l ih =>
      intro i
      simp only [serializeFrom, List.map_cons, List.nodup_cons]
      refine ⟨fun hmem => ?_, ih (i + 1)⟩
      rcases serializeFrom_uid_mem nowAt l (i + 1) _ hmem with ⟨j, hj, hu⟩
      have hu' : mkUid (nowAt i) i = mkUid (nowAt j) j := hu
      have := mkUid_inj_index hu'
      omega

/-! ### C7 — block count and UID uniqueness of the serialized calendar -/

/-- C7: the claim "the re-parsed event count equals the input list length for
every non-empty normalized list" is false on the code: the distribution stage
inside `generateICalendar` caps output at 28 days × 5 events, so an input of
141 events yields 140 blocks. -/
theorem c7_counterexample :
    (generateICalendar rnd0 0 nowAt0 c7Input).length ≠ c7Input.length := by
  rw [generateICalendar_length]
  simp [c7Input]

/-- C7 (amended): the serialized calendar contains exactly `min n 140` event
blocks for `n` input events (one per input record whenever `n ≤ 140`), and
the UID of every block is unique. -/
theorem c7_serializer_contract (rnd : ℕ → ℚ) (today : ℤ) (nowAt : ℕ → ℕ)
    (events : List NormalizedEvent) (_hne : events ≠ []) :
    (generateICalendar rnd today nowAt events).length = min events.length 140 ∧
    ((generateICalendar rnd today nowAt events).map SerializedEvent.uid).Nodup :=
  ⟨generateICalendar_length rnd today nowAt events,
   serializeFrom_uid_nodup nowAt (distributeEvents rnd today events) 0⟩

/-- Witness for `c7_serializer_contract` on a one-event list. -/
theorem c7_witness :
    (generateICalendar rnd0 0 nowAt0 [sampleEvent]).length = min [sampleEvent].length 140 ∧
    ((generateICalendar rnd0 0 nowAt0 [sampleEvent]).map SerializedEvent.uid).Nodup :=
  c7_serializer_contract rnd0 0 nowAt0 [sampleEvent] (List.cons_ne_nil sampleEvent [])

/-! ### The relevance filter and the handler (C4, C10) -/

/-- The executable squared-distance test agrees with the spec's
square-root-distance criterion. -/
theorem specWithin_iff (targetLat targetLon lat lon : ℚ) :
    specWithinThreshold targetLat targetLon lat lon ↔
      ((lat - targetLat) ^ 2 + (lon - targetLon) ^ 2 : ℚ) < 1 := by
  unfold specWithinThreshold
  rw [show ((lat:ℝ) - targetLat) ^ 2 + ((lon:ℝ) - targetLon) ^ 2
      = (((lat - targetLat) ^ 2 + (lon - targetLon) ^ 2 : ℚ) : ℝ) by push_cast; ring]
  rw [Real.sqrt_lt' one_pos]
  constructor <;> intro h <;> exact_mod_cast h

/-- The filter predicate holds exactly on records with coordinates within the
spec's 1.0-degree threshold. -/
theorem isLocalEvent_iff (targetLat targetLon : ℚ) (e : RawEvent) :
    isLocalEvent targetLat targetLon e = true ↔
      ∃ lon lat rest, e.location = some (lon :: lat :: rest) ∧
        specWithinThreshold targetLat targetLon lat lon := by
  rcases hloc : e.location with _ | l
  · simp [isLocalEvent, hloc]
  · rcases l with _ | ⟨lon, _ | ⟨lat, rest⟩⟩
    · simp [isLocalEvent, hloc]
    · simp [isLocalEvent, hloc]
    · simp only [isLocalEvent, hloc, decide_eq_true_eq, Option.some.injEq]
      constructor
      · intro h
        exact ⟨lon, lat, rest, rfl, (specWithin_iff targetLat targetLon lat lon).2 h⟩
      · rintro ⟨lon', lat', rest', heq, hspec⟩
        injection heq with e1 heq2
        injection heq2 with e2 e3
        subst e1
        subst e2
        exact (specWithin_iff _ _ _ _).1 hspec

/-- The inner synthesis loop produces exactly its requested count. -/
theorem synthEventsForDay_length (rnd : ℕ → ℚ) (cityName : String)
    (categoryList : List String) (d : ℤ) :
    ∀ n c, (synthEventsForDay rnd cityName categoryList d c n).length = n := by
  intro n
  induction n with
  | zero => intro c; rfl
  | succ m ih => intro c; simp [synthEventsForDay, ih (c + 5)]

/-- With at least one week requested, synthesis always yields at least one
event (2–3 are generated on the first day before the 140 cap). -/
theorem generateLocationEvents_ne_nil (rnd : ℕ → ℚ) (today : ℤ)
    (cityNameOpt : Option String) (categories : String) {weeks : ℕ}
    (hw : 0 < weeks) :
    generateLocationEvents rnd today cityNameOpt categories weeks ≠ [] := by
  unfold generateLocationEvents
  intro hnil
  have hlen := congrArg List.length hnil
  rw [List.length_take] at hlen
  obtain ⟨m, hm⟩ : ∃ m, weeks * 7 = m + 1 := ⟨weeks * 7 - 1, by omega⟩
  rw [hm, List.range_succ_eq_map, synthAllDays, List.length_append] at hlen
  rcases hk : jsFloorIdx (rnd 0) 2 + 2 with _ | k
  · omega
  · rw [hk, synthEventsForDay, List.length_cons] at hlen
    simp at hlen

/-- C4: the relevance filter retains exactly the provider records whose
coordinates lie within Euclidean distance 1.0 degree of the query center (in
the spec's square-root formulation); when at least 10 events survive, the
handler uses the retained set verbatim (normalized, then serialized), and when
fewer than 10 survive it falls back to synthesis. -/
theorem c4_relevance_policy (targetLat targetLon : ℚ) (events : List RawEvent)
    (rndGen rndCal : ℕ → ℚ) (today now : ℤ) (nowAt : ℕ → ℕ) (cats : String)
    (weeksOpt : Option ℕ) (cityName : Option String) (store : Store) :
    (∀ e, e ∈ events.filter (isLocalEvent targetLat targetLon) ↔
        e ∈ events ∧ ∃ lon lat rest, e.location = some (lon :: lat :: rest) ∧
          specWithinThreshold targetLat targetLon lat lon) ∧
    (0 < events.length →
      10 ≤ (events.filter (isLocalEvent targetLat targetLon)).length →
      (handleGenerateCalendar true (.ok events) rndGen rndCal today now nowAt
          { location := some ⟨targetLat, targetLon⟩, categories := some cats,
            weeks := weeksOpt, cityName := cityName } store).1
        = .ok (normalizeEvents (events.filter (isLocalEvent targetLat targetLon))).length
            (normalizeEvents (events.filter (isLocalEvent targetLat targetLon))) now) ∧
    (0 < events.length →
      (events.filter (isLocalEvent targetLat targetLon)).length < 10 →
      0 < weeksOpt.getD 4 →
      (handleGenerateCalendar true (.ok events) rndGen rndCal today now nowAt
          { location := some ⟨targetLat, targetLon⟩, categories := some cats,
            weeks := weeksOpt, cityName := cityName } store).1
        = .ok (normalizeEvents (generateLocationEvents rndGen today cityName cats
              (weeksOpt.getD 4))).length
            (normalizeEvents (generateLocationEvents rndGen today cityName cats
              (weeksOpt.getD 4))) now) := by
  refine ⟨fun e => ?_, fun h0 hlen => ?_, fun h0 hlen hw => ?_⟩
  · rw [List.mem_filter, isLocalEvent_iff]
  · have hne : ¬ ((events.filter (isLocalEvent targetLat targetLon)).length = 0) := by omega
    simp [handleGenerateCalendar, h0, hlen, hne, storePut_fst]
  · have hnotlen : ¬ (10 ≤ (events.filter (isLocalEvent targetLat targetLon)).length) := by
      omega
    have hne : ¬ ((generateLocationEvents rndGen today cityName cats
        (weeksOpt.getD 4)).length = 0) := by
      intro hz
      exact generateLocationEvents_ne_nil rndGen today cityName cats hw
        (List.length_eq_zero.1 hz)
    simp [handleGenerateCalendar, h0, hnotlen, hne, storePut_fst]

/-- Witness for `c4_relevance_policy`: ten provider records at the query
center (retained and used verbatim), and the fallback branch through a
single far-away record. -/
theorem c4_witness :
    (handleGenerateCalendar true (.ok (List.replicate 10 c4EventNear)) rnd0 rnd0 0 0 nowAt0
        { location := some ⟨0, 0⟩, categories := some "festivals",
          weeks := none, cityName := none } emptyStore).1
      = .ok (normalizeEvents ((List.replicate 10 c4EventNear).filter (isLocalEvent 0 0))).length
          (normalizeEvents ((List.replicate 10 c4EventNear).filter (isLocalEvent 0 0))) 0 ∧
    (handleGenerateCalendar true (.ok [c4EventFar]) rnd0 rnd0 0 0 nowAt0
        { location := some ⟨0, 0⟩, categories := some "festivals",
          weeks := none, cityName := none } emptyStore).1
      = .ok (normalizeEvents (generateLocationEvents rnd0 0 none "festivals" 4)).length
          (normalizeEvents (generateLocationEvents rnd0 0 none "festivals" 4)) 0 := by
  have hnear : (List.replicate 10 c4EventNear).filter (isLocalEvent 0 0)
      = List.replicate 10 c4EventNear := by
    rw [List.filter_eq_self]
    intro a ha
    rw [List.eq_of_mem_replicate ha, isLocalEvent_iff]
    refine ⟨0, 0, [], rfl, ?_⟩
    rw [specWithin_iff]
    norm_num
  have hfar : [c4EventFar].filter (isLocalEvent 0 0) = [] := by
    rw [List.filter_eq_nil_iff]
    intro a ha
    rw [List.mem_singleton.1 ha]
    intro hcontra
    rw [isLocalEvent_iff] at hcontra
    rcases hcontra with ⟨lon, lat, rest, heq, hspec⟩
    obtain ⟨rfl, rfl, rfl⟩ : lon = 5 ∧ lat = 5 ∧ rest = [] := by
      have := heq
      simp only [c4EventFar, Option.some.injEq, List.cons.injEq] at this
      tauto
    rw [specWithin_iff] at hspec
    norm_num at hspec
  constructor
  · exact (c4_relevance_policy 0 0 (List.replicate 10 c4EventNear) rnd0 rnd0 0 0 nowAt0
      "festivals" none none emptyStore).2.1 (by simp) (by rw [hnear]; simp)
  · exact (c4_relevance_policy 0 0 [c4EventFar] rnd0 rnd0 0 0 nowAt0
      "festivals" none none emptyStore).2.2 (by simp) (by rw [hfar]; simp) (by norm_num)

/-- C10: with a location present, no `categories` field and no provider token
configured, the handler reaches synthesis, which throws on
`categories.split`; the surrounding try/catch turns this into a 500 server
error, not a 400 validation error — indeed no request carrying a location can
ever produce the 400 branch, since only `location` is validated. -/
theorem c10_missing_categories (providerResult : Except Unit (List RawEvent))
    (rndGen rndCal : ℕ → ℚ) (today now : ℤ) (nowAt : ℕ → ℕ) (loc : LocationQuery)
    (weeksOpt : Option ℕ) (cityName : Option String) (store : Store) :
    (∃ msg, (handleGenerateCalendar false providerResult rndGen rndCal today now nowAt
        { location := some loc, categories := none, weeks := weeksOpt,
          cityName := cityName } store).1 = .serverError msg) ∧
    (∀ (hasToken : Bool) (pr : Except Unit (List RawEvent)) (req : GenerateRequest)
        (s : Store), req.location = some loc →
      ∀ msg, (handleGenerateCalendar hasToken pr rndGen rndCal today now nowAt req s).1
        ≠ .badRequest msg) := by
  constructor
  · exact ⟨"categories.split is not a function", rfl⟩
  · intro hasToken pr req s hloc msg
    obtain ⟨rloc, rcats, rweeks, rcity⟩ := req
    simp only at hloc
    subst hloc
    simp only [handleGenerateCalendar]
    split
    · simp
    · split <;> simp

/-- Witness for `c10_missing_categories` at a concrete location-only
request. -/
theorem c10_witness :
    (∃ msg, (handleGenerateCalendar false (.ok []) rnd0 rnd0 0 0 nowAt0
        { location := some ⟨0, 0⟩, categories := none, weeks := none,
          cityName := none } emptyStore).1 = .serverError msg) ∧
    (handleGenerateCalendar false (.ok []) rnd0 rnd0 0 0 nowAt0
        { location := some ⟨0, 0⟩, categories := none, weeks := none,
          cityName := none } emptyStore).1 ≠ .badRequest "Location is required" := by
  obtain ⟨h1, h2⟩ := c10_missing_categories (.ok []) rnd0 rnd0 0 0 nowAt0 ⟨0, 0⟩
    none none emptyStore
  exact ⟨h1, h2 false (.ok [])
    { location := some ⟨0, 0⟩, categories := none, weeks := none, cityName := none }
    emptyStore rfl "Location is required"⟩

end YourIcal
